import Mathlib

/-!
Shallow embedding of the PIX deposit controller of the ThunderBet backend
and of the collaborators it drives: the Transaction Store, the user
directory and the balance ledger.

The Mongo collection behind the Transaction model is modelled as a list of
`Transaction` records in insertion order.  A `findOne(filter).sort(keys)`
call is modelled by filtering the list and taking the record whose sort key
is lexicographically greatest, keeping the earliest such record in store
order on a tie (`selectMax`).  `save` on a loaded document and `updateMany`
are modelled as per-record maps over the list.  Monetary amounts and
timestamps are natural numbers; `createdAt` grows with insertion time.
-/

inductive TxnType where
  | DEPOSIT
  | WITHDRAWAL
  | BET
deriving DecidableEq, Repr

inductive TxnStatus where
  | PENDING
  | COMPLETED
  | CANCELLED
deriving DecidableEq, Repr

inductive PayMethod where
  | PIX
  | OTHER
deriving DecidableEq, Repr

/-- One document of the Transaction collection; the fields the webhook
logic reads or writes (`metadata` is audit-only and never read back by the
controller, so it is not carried). -/
structure Transaction where
  id : Nat
  userId : Nat
  type : TxnType
  amount : Nat
  status : TxnStatus
  paymentMethod : PayMethod
  createdAt : Nat
deriving DecidableEq, Repr

/-- One document of the User collection: only the balance matters here. -/
structure User where
  id : Nat
  balance : Nat
deriving DecidableEq, Repr

/-- The persistent state the controller sees: the two collections and
whether an active PIX credential is configured. -/
structure Store where
  txns : List Transaction
  users : List User
  hasActiveCredential : Bool
deriving DecidableEq, Repr

/-- Strict lexicographic greater-than on sort keys, `true` when `a` sorts
strictly before `b` under a Mongo descending sort on both components. -/
def lexGt (a b : Nat × Nat) : Bool :=
  b.1 < a.1 || (a.1 == b.1 && b.2 < a.2)

/-- Fold keeping the best record so far; a later record replaces the best
only when strictly greater, so the earliest maximal record wins. -/
def selectMaxAux (key : Transaction → Nat × Nat) (best : Transaction) :
    List Transaction → Transaction
  | [] => best
  | x :: xs => selectMaxAux key (if lexGt (key x) (key best) then x else best) xs

/-- `findOne(filter).sort(desc keys)` over an already-filtered list. -/
def selectMax (key : Transaction → Nat × Nat) : List Transaction → Option Transaction
  | [] => none
  | t :: ts => some (selectMaxAux key t ts)

/-- The filter `type: DEPOSIT, status: PENDING, paymentMethod: PIX`. -/
def isPendingPixDeposit (t : Transaction) : Bool :=
  t.type == .DEPOSIT && t.status == .PENDING && t.paymentMethod == .PIX

/-- The same filter restricted to one user. -/
def isUserPendingPixDeposit (uid : Nat) (t : Transaction) : Bool :=
  t.userId == uid && isPendingPixDeposit t

/-- All PENDING PIX deposit transactions system-wide, in store order. -/
def systemPendings (st : Store) : List Transaction :=
  st.txns.filter isPendingPixDeposit

/-- All PENDING PIX deposit transactions of one user, in store order. -/
def pendingsOf (uid : Nat) (st : Store) : List Transaction :=
  st.txns.filter (isUserPendingPixDeposit uid)

/-- Sort key of `sort createdAt desc`. -/
def keyCreatedAt (t : Transaction) : Nat × Nat :=
  (t.createdAt, 0)

/-- Sort key of `sort amount desc, createdAt desc`. -/
def keyAmountCreatedAt (t : Transaction) : Nat × Nat :=
  (t.amount, t.createdAt)

/-- Step 2 of the webhook: the owner of the most recently created PENDING
PIX deposit system-wide, if any. -/
def identifiedUser (st : Store) : Option Nat :=
  (selectMax keyCreatedAt (systemPendings st)).map Transaction.userId

/-- Step 3 of the webhook: the user's PENDING PIX deposit of greatest
amount, ties broken by most recent creation. -/
def candidateFor (uid : Nat) (st : Store) : Option Transaction :=
  selectMax keyAmountCreatedAt (pendingsOf uid st)

/-- `findOne` by transaction id (first record with that id). -/
def findTxn (i : Nat) (txns : List Transaction) : Option Transaction :=
  txns.find? (fun t => t.id == i)

/-- `User.findById`. -/
def findUser (uid : Nat) (st : Store) : Option User :=
  st.users.find? (fun u => u.id == uid)

/-- The identified user's balance, when the user exists. -/
def balanceOf (uid : Nat) (st : Store) : Option Nat :=
  (findUser uid st).map User.balance

/-- `latestTransaction.status = COMPLETED; latestTransaction.save()`:
the stored document with the candidate's id gets status COMPLETED. -/
def completeTxn (cid : Nat) (txns : List Transaction) : List Transaction :=
  txns.map (fun t => if t.id == cid then { t with status := .COMPLETED } else t)

/-- The `updateMany` cancelling every other PENDING PIX deposit of the
same user (filter `userId, DEPOSIT, PENDING, PIX, id distinct from the
candidate`). -/
def cancelOthers (uid cid : Nat) (txns : List Transaction) : List Transaction :=
  txns.map (fun t =>
    if isUserPendingPixDeposit uid t && t.id != cid then
      { t with status := .CANCELLED }
    else t)

/-- Modelled from the spec: the Transaction model's persistence middleware
is not among the sources; per the spec (component contract step 7 and the
balance-ledger interface) it credits the owning user's balance with the
transaction's amount exactly when the COMPLETED transition is persisted by
`save`.  The `updateMany` cancellations bypass it, so they credit
nothing. -/
def creditBalance (uid amt : Nat) (users : List User) : List User :=
  users.map (fun u =>
    if u.id == uid then { u with balance := u.balance + amt } else u)

/-- The webhook body as parsed by the controller: only `status` is ever
compared; the remaining provider fields flow into audit metadata only. -/
structure Payload where
  status : String
deriving DecidableEq, Repr

inductive WebhookResult where
  | invalidWebhook
  | noPendingSystem
  | noPendingUser
  | userNotFound
  | persistenceError
  | ok (userId : Nat) (creditedAmount : Nat) (cancelledCount : Nat)
deriving DecidableEq, Repr

/-- Where, if anywhere, the persistence layer throws during the two write
calls of the webhook (`save`, then `updateMany`). -/
inductive FaultPoint where
  | noFault
  | failAtSave
  | failAtCancel
deriving DecidableEq, Repr

/-- The `pixWebhook` handler, with an explicit fault point standing for a
persistence failure raised by one of its two sequential write calls; the
surrounding try/catch turns such a failure into a 500 response, with every
write already persisted before the failing call left in place. -/
def pixWebhookF (fault : FaultPoint) (payload : Option Payload) (st : Store) :
    WebhookResult × Store :=
  match payload with
  | none => (.invalidWebhook, st)
  | some p =>
    if p.status = "PAID" then
      match selectMax keyCreatedAt (systemPendings st) with
      | none => (.noPendingSystem, st)
      | some anyPendingTransaction =>
        let userId := anyPendingTransaction.userId
        match candidateFor userId st with
        | none => (.noPendingUser, st)
        | some latestTransaction =>
          match findUser latestTransaction.userId st with
          | none => (.userNotFound, st)
          | some _ =>
            if fault == .failAtSave then (.persistenceError, st)
            else
              let txns1 := completeTxn latestTransaction.id st.txns
              let users1 :=
                creditBalance latestTransaction.userId latestTransaction.amount st.users
              if fault == .failAtCancel then
                (.persistenceError, { st with txns := txns1, users := users1 })
              else
                let others := txns1.filter (fun t =>
                  isUserPendingPixDeposit userId t && t.id != latestTransaction.id)
                (.ok userId latestTransaction.amount others.length,
                  { st with txns := cancelOthers userId latestTransaction.id txns1,
                            users := users1 })
    else (.invalidWebhook, st)

/-- The `pixWebhook` handler on a fault-free run. -/
def pixWebhook : Option Payload → Store → WebhookResult × Store :=
  pixWebhookF .noFault

/-- The combined per-record effect of the webhook's two sequential writes
(`save` of the candidate, then the cancelling `updateMany`) on one stored
transaction: the candidate's id gains status COMPLETED, every other
PENDING PIX deposit of the user is CANCELLED, everything else is kept. -/
def reconcileStep (uid cid : Nat) (t : Transaction) : Transaction :=
  if t.id == cid then { t with status := .COMPLETED }
  else if isUserPendingPixDeposit uid t then { t with status := .CANCELLED }
  else t

inductive GenResult where
  | invalidAmount
  | belowMinimum
  | noCredentials
  | created (transactionId : Nat) (amount : Nat)
deriving DecidableEq, Repr

/-- The `generatePixQrCode` handler: validates the amount (present,
positive, at least 35), requires an active PIX credential, then appends a
new PENDING PIX deposit transaction. -/
def generatePixQrCode (uid : Nat) (amount : Option Nat) (newId now : Nat)
    (st : Store) : GenResult × Store :=
  match amount with
  | none => (.invalidAmount, st)
  | some a =>
    if a == 0 then (.invalidAmount, st)
    else if a < 35 then (.belowMinimum, st)
    else if !st.hasActiveCredential then (.noCredentials, st)
    else
      (.created newId a,
        { st with txns := st.txns ++ [⟨newId, uid, .DEPOSIT, a, .PENDING, .PIX, now⟩] })

/-- A PIX deposit record literal, for concrete test states. -/
def mkDeposit (i uid amt created : Nat) (s : TxnStatus) : Transaction :=
  ⟨i, uid, .DEPOSIT, amt, s, .PIX, created⟩

/-- The provider's success payload. -/
def paidPayload : Payload :=
  ⟨"PAID"⟩

/-- The spec's concrete scenario: one user, PENDING deposits of 500 (older)
and 35 (newer), balance 0. -/
def store500and35 : Store :=
  ⟨[mkDeposit 1 1 500 1 .PENDING, mkDeposit 2 1 35 2 .PENDING], [⟨1, 0⟩], true⟩

/-- Two users, each with one PENDING deposit; user 1's is the newest. -/
def storeTwoUsers : Store :=
  ⟨[mkDeposit 1 1 100 5 .PENDING, mkDeposit 2 2 50 3 .PENDING], [⟨1, 0⟩, ⟨2, 0⟩], true⟩

/-- One user with two PENDING deposits tied on amount; id 2 is newer. -/
def storeTie : Store :=
  ⟨[mkDeposit 1 1 100 1 .PENDING, mkDeposit 2 1 100 2 .PENDING], [⟨1, 0⟩], true⟩

/-- A store whose only deposit is already COMPLETED: no PENDING PIX
deposit exists system-wide. -/
def storeNoPending : Store :=
  ⟨[mkDeposit 1 1 50 1 .COMPLETED], [⟨1, 0⟩], true⟩

/-- One user with an already COMPLETED deposit next to a PENDING one, so a
webhook run does reconcile while the terminal record must stay put. -/
def storeMixed : Store :=
  ⟨[mkDeposit 1 1 50 1 .COMPLETED, mkDeposit 2 1 40 2 .PENDING], [⟨1, 0⟩], true⟩

theorem lexGt_irrefl (a : Nat × Nat) : lexGt a a = false := by
  simp [lexGt]

theorem lexGt_asymm {a b : Nat × Nat} (h : lexGt a b = true) : lexGt b a = false := by
  simp [lexGt] at h ⊢
  omega

theorem lexGt_le_trans {a b c : Nat × Nat} (hab : lexGt a b = false)
    (hbc : lexGt b c = false) : lexGt a c = false := by
  simp [lexGt] at hab hbc ⊢
  omega

theorem selectMaxAux_mem (key : Transaction → Nat × Nat) (best : Transaction)
    (l : List Transaction) :
    selectMaxAux key best l = best ∨ selectMaxAux key best l ∈ l := by
  induction l generalizing best with
  | nil => exact Or.inl rfl
  | cons x xs ih =>
    simp only [selectMaxAux]
    rcases ih (if lexGt (key x) (key best) then x else best) with h | h
    · by_cases hx : lexGt (key x) (key best) = true
      · right
        rw [h, if_pos hx]
        exact List.mem_cons_self _ _
      · left
        rw [h, if_neg hx]
    · exact Or.inr (List.mem_cons_of_mem _ h)

theorem selectMaxAux_not_gt (key : Transaction → Nat × Nat) (best : Transaction)
    (l : List Transaction) :
    ∀ y, (y = best ∨ y ∈ l) →
      lexGt (key y) (key (selectMaxAux key best l)) = false := by
  induction l generalizing best with
  | nil =>
    intro y hy
    rcases hy with rfl | h
    · exact lexGt_irrefl _
    · cases h
  | cons x xs ih =>
    intro y hy
    simp only [selectMaxAux]
    have hbest : lexGt (key best)
        (key (if lexGt (key x) (key best) then x else best)) = false := by
      by_cases hx : lexGt (key x) (key best) = true
      · rw [if_pos hx]; exact lexGt_asymm hx
      · rw [if_neg hx]; exact lexGt_irrefl _
    have hx' : lexGt (key x)
        (key (if lexGt (key x) (key best) then x else best)) = false := by
      by_cases hx : lexGt (key x) (key best) = true
      · rw [if_pos hx]; exact lexGt_irrefl _
      · rw [if_neg hx]; exact Bool.eq_false_iff.mpr hx
    have hrec := ih (if lexGt (key x) (key best) then x else best)
    have hb' : lexGt (key (if lexGt (key x) (key best) then x else best))
        (key (selectMaxAux key (if lexGt (key x) (key best) then x else best) xs))
          = false := hrec _ (Or.inl rfl)
    rcases hy with rfl | hy
    · exact lexGt_le_trans hbest hb'
    · rcases List.mem_cons.mp hy with rfl | hy
      · exact lexGt_le_trans hx' hb'
      · exact hrec y (Or.inr hy)

theorem selectMax_mem {key : Transaction → Nat × Nat} {l : List Transaction}
    {c : Transaction} (h : selectMax key l = some c) : c ∈ l := by
  cases l with
  | nil => cases h
  | cons t ts =>
    simp only [selectMax, Option.some.injEq] at h
    rcases selectMaxAux_mem key t ts with h' | h'
    · rw [← h, h']; exact List.mem_cons_self _ _
    · rw [← h]; exact List.mem_cons_of_mem _ h'

theorem selectMax_not_gt {key : Transaction → Nat × Nat} {l : List Transaction}
    {c : Transaction} (h : selectMax key l = some c) :
    ∀ x ∈ l, lexGt (key x) (key c) = false := by
  cases l with
  | nil => cases h
  | cons t ts =>
    intro x hx
    simp only [selectMax, Option.some.injEq] at h
    rw [← h]
    rcases List.mem_cons.mp hx with rfl | hx
    · exact selectMaxAux_not_gt key x ts x (Or.inl rfl)
    · exact selectMaxAux_not_gt key t ts x (Or.inr hx)

theorem selectMax_isSome {key : Transaction → Nat × Nat} {l : List Transaction}
    (h : l ≠ []) : (selectMax key l).isSome = true := by
  cases l with
  | nil => exact absurd rfl h
  | cons t ts => rfl

theorem selectMax_eq_of_strict {key : Transaction → Nat × Nat}
    {l : List Transaction} {t : Transaction} (ht : t ∈ l)
    (hstrict : ∀ s ∈ l, s ≠ t → lexGt (key t) (key s) = true) :
    selectMax key l = some t := by
  have h1 : (selectMax key l).isSome = true :=
    selectMax_isSome (List.ne_nil_of_mem ht)
  obtain ⟨c, hc⟩ := Option.isSome_iff_exists.mp h1
  have hmem := selectMax_mem hc
  have hnot := selectMax_not_gt hc t ht
  by_cases hct : c = t
  · rw [hc, hct]
  · rw [hstrict c hmem hct] at hnot
    cases hnot

theorem find?_map_key {α : Type} (f : α → α) (k : α → Nat)
    (hf : ∀ x, k (f x) = k x) (i : Nat) (l : List α) :
    (l.map f).find? (fun x => k x == i) = (l.find? (fun x => k x == i)).map f := by
  have hp : ((fun x => k x == i) ∘ f) = (fun x => k x == i) := by
    funext x
    simp [Function.comp, hf]
  rw [List.find?_map, hp]

theorem find?_key_of_nodup {α : Type} (k : α → Nat) (l : List α) (t : α)
    (hnd : (l.map k).Nodup) (ht : t ∈ l) :
    l.find? (fun x => k x == k t) = some t := by
  induction l with
  | nil => cases ht
  | cons h rest ih =>
    simp only [List.map_cons, List.nodup_cons] at hnd
    rcases List.mem_cons.mp ht with rfl | hmem
    · simp [List.find?_cons]
    · have hne : (k h == k t) = false := by
        simp only [beq_eq_false_iff_ne, ne_eq]
        intro he
        exact hnd.1 (he ▸ List.mem_map_of_mem k hmem)
      rw [List.find?_cons, hne]
      exact ih hnd.2 hmem

theorem mem_pendingsOf {uid : Nat} {st : Store} {t : Transaction} :
    t ∈ pendingsOf uid st ↔ t ∈ st.txns ∧ t.userId = uid ∧ t.type = .DEPOSIT ∧
      t.status = .PENDING ∧ t.paymentMethod = .PIX := by
  simp [pendingsOf, List.mem_filter, isUserPendingPixDeposit, isPendingPixDeposit,
    and_assoc]

theorem mem_systemPendings {st : Store} {t : Transaction} :
    t ∈ systemPendings st ↔ t ∈ st.txns ∧ t.type = .DEPOSIT ∧
      t.status = .PENDING ∧ t.paymentMethod = .PIX := by
  simp [systemPendings, List.mem_filter, isPendingPixDeposit, and_assoc]

theorem identifiedUser_eq_some {st : Store} {u : Nat} (h : identifiedUser st = some u) :
    ∃ a, selectMax keyCreatedAt (systemPendings st) = some a ∧ a.userId = u := by
  simpa [identifiedUser, Option.map_eq_some'] using h

theorem mem_pendingsOf_self {st : Store} {a : Transaction}
    (h : a ∈ systemPendings st) : a ∈ pendingsOf a.userId st := by
  rcases mem_systemPendings.mp h with ⟨h1, h2, h3, h4⟩
  exact mem_pendingsOf.mpr ⟨h1, rfl, h2, h3, h4⟩

theorem candidateFor_mem {uid : Nat} {st : Store} {c : Transaction}
    (hc : candidateFor uid st = some c) : c ∈ pendingsOf uid st :=
  selectMax_mem hc

theorem pixWebhook_success (q : Payload) (st : Store) (a c : Transaction) (usr : User)
    (hq : q.status = "PAID")
    (hany : selectMax keyCreatedAt (systemPendings st) = some a)
    (hc : candidateFor a.userId st = some c)
    (husr : findUser c.userId st = some usr) :
    pixWebhook (some q) st =
      (.ok a.userId c.amount
          ((completeTxn c.id st.txns).filter
            (fun t => isUserPendingPixDeposit a.userId t && t.id != c.id)).length,
        { st with txns := cancelOthers a.userId c.id (completeTxn c.id st.txns),
                  users := creditBalance c.userId c.amount st.users }) := by
  simp [pixWebhook, pixWebhookF, hq, hany, hc, husr]

theorem pixWebhookF_failAtSave (q : Payload) (st : Store) (a c : Transaction) (usr : User)
    (hq : q.status = "PAID")
    (hany : selectMax keyCreatedAt (systemPendings st) = some a)
    (hc : candidateFor a.userId st = some c)
    (husr : findUser c.userId st = some usr) :
    pixWebhookF .failAtSave (some q) st = (.persistenceError, st) := by
  simp [pixWebhookF, hq, hany, hc, husr]

theorem pixWebhookF_failAtCancel (q : Payload) (st : Store) (a c : Transaction)
    (usr : User)
    (hq : q.status = "PAID")
    (hany : selectMax keyCreatedAt (systemPendings st) = some a)
    (hc : candidateFor a.userId st = some c)
    (husr : findUser c.userId st = some usr) :
    pixWebhookF .failAtCancel (some q) st =
      (.persistenceError,
        { st with txns := completeTxn c.id st.txns,
                  users := creditBalance c.userId c.amount st.users }) := by
  simp [pixWebhookF, hq, hany, hc, husr]

theorem cancelOthers_completeTxn (uid cid : Nat) (txns : List Transaction) :
    cancelOthers uid cid (completeTxn cid txns) = txns.map (reconcileStep uid cid) := by
  rw [cancelOthers, completeTxn, List.map_map]
  congr 1
  funext t
  by_cases h : t.id = cid
  · simp [Function.comp, reconcileStep, h]
  · by_cases h2 : isUserPendingPixDeposit uid t = true
    · simp [Function.comp, reconcileStep, h, h2]
    · simp [Function.comp, reconcileStep, h, h2]

theorem reconcileStep_id (uid cid : Nat) (t : Transaction) :
    (reconcileStep uid cid t).id = t.id := by
  rw [reconcileStep]
  by_cases h : t.id = cid
  · simp [h]
  · by_cases h2 : isUserPendingPixDeposit uid t = true <;> simp [h, h2]

theorem findTxn_of_nodup {txns : List Transaction} {t : Transaction}
    (hnd : (txns.map Transaction.id).Nodup) (ht : t ∈ txns) :
    findTxn t.id txns = some t :=
  find?_key_of_nodup Transaction.id txns t hnd ht

theorem findTxn_post {uid cid : Nat} {txns : List Transaction} {t : Transaction}
    (hnd : (txns.map Transaction.id).Nodup) (ht : t ∈ txns) :
    findTxn t.id (cancelOthers uid cid (completeTxn cid txns)) =
      some (reconcileStep uid cid t) := by
  rw [cancelOthers_completeTxn]
  have := find?_map_key (reconcileStep uid cid) Transaction.id
    (reconcileStep_id uid cid) t.id txns
  rw [findTxn, this, ← findTxn, findTxn_of_nodup hnd ht]
  rfl

theorem pixWebhook_no_pending (q : Payload) (st : Store) (hq : q.status = "PAID")
    (h : systemPendings st = []) :
    pixWebhook (some q) st = (.noPendingSystem, st) := by
  simp [pixWebhook, pixWebhookF, hq, h, selectMax]

theorem findTxn_completeTxn {cid : Nat} {txns : List Transaction} {t : Transaction}
    (hnd : (txns.map Transaction.id).Nodup) (ht : t ∈ txns) :
    findTxn t.id (completeTxn cid txns) =
      some (if t.id == cid then { t with status := .COMPLETED } else t) := by
  have hpres : ∀ x : Transaction,
      (if x.id == cid then { x with status := TxnStatus.COMPLETED } else x).id = x.id := by
    intro x
    by_cases h : x.id = cid <;> simp [h]
  rw [completeTxn, findTxn, find?_map_key _ Transaction.id hpres t.id txns, ← findTxn,
    findTxn_of_nodup hnd ht]
  rfl

theorem find?_append_left {α : Type} (p : α → Bool) (l l' : List α) {a : α}
    (h : l.find? p = some a) : (l ++ l').find? p = some a := by
  induction l with
  | nil => cases h
  | cons x xs ih =>
    rw [List.cons_append, List.find?_cons] at *
    cases hx : p x with
    | true => rw [hx] at h; exact h
    | false => rw [hx] at h; exact ih h

/-- C7: for every payload that is missing or whose status field is not the
success marker PAID, the webhook answers with the InvalidWebhook validation
error (the 400 response) and returns the store completely unchanged: every
transaction and every balance is untouched. -/
theorem webhook_invalid_payload_rejected (p : Option Payload) (st : Store)
    (h : p = none ∨ ∃ q, p = some q ∧ q.status ≠ "PAID") :
    pixWebhook p st = (.invalidWebhook, st) := by
  rcases h with rfl | ⟨q, rfl, hq⟩
  · rfl
  · simp [pixWebhook, pixWebhookF, hq]

theorem webhook_invalid_payload_rejected_witness :
    pixWebhook (some ⟨"PENDING"⟩) store500and35 = (.invalidWebhook, store500and35) :=
  webhook_invalid_payload_rejected _ _ (Or.inr ⟨_, rfl, by decide⟩)

/-- C8: when no PENDING PIX deposit exists anywhere in the store, a success
payload makes the webhook fail with the system-wide NoPendingDeposit error
(the 404 response) and perform no mutation. -/
theorem webhook_no_pending_rejected (q : Payload) (st : Store)
    (hq : q.status = "PAID") (h : systemPendings st = []) :
    pixWebhook (some q) st = (.noPendingSystem, st) :=
  pixWebhook_no_pending q st hq h

theorem webhook_no_pending_rejected_witness :
    pixWebhook (some paidPayload) storeNoPending = (.noPendingSystem, storeNoPending) :=
  webhook_no_pending_rejected _ _ rfl (by decide)

/-- C5: when the store holds at least one PENDING PIX deposit, the webhook
identifies the target user as the owner of the most recently created
PENDING PIX deposit system-wide (strictly newest across all users). -/
theorem webhook_identifies_latest_owner (st : Store) (t : Transaction)
    (ht : t ∈ systemPendings st)
    (hlatest : ∀ s ∈ systemPendings st, s ≠ t → s.createdAt < t.createdAt) :
    identifiedUser st = some t.userId := by
  rw [identifiedUser, selectMax_eq_of_strict ht ?_]
  · rfl
  · intro s hs hst
    have := hlatest s hs hst
    simp [lexGt, keyCreatedAt]
    omega

theorem webhook_identifies_latest_owner_witness :
    identifiedUser storeTwoUsers = some 1 :=
  webhook_identifies_latest_owner storeTwoUsers (mkDeposit 1 1 100 5 .PENDING)
    (by decide) (by decide)

/-- C6: among a user's PENDING PIX deposits, the webhook selects as the
transaction to complete the one strictly dominating all the others under
amount first, creation time second; in particular, when several share the
maximum amount, the most recently created of them is selected. -/
theorem webhook_candidate_tiebreak (st : Store) (u : Nat) (t : Transaction)
    (ht : t ∈ pendingsOf u st)
    (hdom : ∀ s ∈ pendingsOf u st, s ≠ t →
      s.amount < t.amount ∨ (s.amount = t.amount ∧ s.createdAt < t.createdAt)) :
    candidateFor u st = some t := by
  rw [candidateFor, selectMax_eq_of_strict ht ?_]
  intro s hs hst
  rcases hdom s hs hst with h | ⟨h1, h2⟩ <;> simp [lexGt, keyAmountCreatedAt] <;> omega

theorem webhook_candidate_tiebreak_witness :
    candidateFor 1 storeTie = some (mkDeposit 2 1 100 2 .PENDING) :=
  webhook_candidate_tiebreak storeTie 1 (mkDeposit 2 1 100 2 .PENDING)
    (by decide) (by decide)

/-- C10: in a sequential run the per-user NoPendingDeposit branch is dead
code: the transaction that identified the user always belongs to that same
user's pending set, so the per-user 404 response is never produced. -/
theorem webhook_per_user_404_unreachable (p : Option Payload) (st : Store) :
    (pixWebhook p st).1 ≠ .noPendingUser := by
  rw [pixWebhook]
  match p with
  | none => simp [pixWebhookF]
  | some q =>
    by_cases hq : q.status = "PAID"
    · cases hany : selectMax keyCreatedAt (systemPendings st) with
      | none => simp [pixWebhookF, hq, hany]
      | some a =>
        have hmem : a ∈ pendingsOf a.userId st :=
          mem_pendingsOf_self (selectMax_mem hany)
        obtain ⟨c, hc⟩ := Option.isSome_iff_exists.mp
          (@selectMax_isSome keyAmountCreatedAt _ (List.ne_nil_of_mem hmem))
        cases husr : findUser c.userId st with
        | none => simp [pixWebhookF, hq, hany, candidateFor, hc, husr]
        | some usr => simp [pixWebhookF, hq, hany, candidateFor, hc, husr]
    · simp [pixWebhookF, hq]

/-- C1: for a user with N PENDING PIX deposits of pairwise distinct
amounts, one success webhook that identifies that user leaves exactly one
of them COMPLETED, namely the one of maximum amount, and the other N minus
one all CANCELLED. -/
theorem webhook_completes_max_cancels_rest (q : Payload) (st : Store) (u : Nat)
    (usr : User)
    (hq : q.status = "PAID")
    (hid : identifiedUser st = some u)
    (husr : findUser u st = some usr)
    (hnd : (st.txns.map Transaction.id).Nodup)
    (hdist : ∀ t ∈ pendingsOf u st, ∀ s ∈ pendingsOf u st, t ≠ s →
      t.amount ≠ s.amount) :
    ∃ c ∈ pendingsOf u st,
      (∀ s ∈ pendingsOf u st, s.amount ≤ c.amount) ∧
      findTxn c.id (pixWebhook (some q) st).2.txns =
        some { c with status := .COMPLETED } ∧
      ∀ t ∈ pendingsOf u st, t ≠ c →
        findTxn t.id (pixWebhook (some q) st).2.txns =
          some { t with status := .CANCELLED } := by
  obtain ⟨a, hany, hau⟩ := identifiedUser_eq_some hid
  subst hau
  have hamem : a ∈ pendingsOf a.userId st :=
    mem_pendingsOf_self (selectMax_mem hany)
  obtain ⟨c, hc⟩ := Option.isSome_iff_exists.mp
    (@selectMax_isSome keyAmountCreatedAt _ (List.ne_nil_of_mem hamem))
  have hc' : candidateFor a.userId st = some c := hc
  have hcmem : c ∈ pendingsOf a.userId st := selectMax_mem hc
  have hcu : c.userId = a.userId := (mem_pendingsOf.mp hcmem).2.1
  have husr' : findUser c.userId st = some usr := by rw [hcu]; exact husr
  have hrw := pixWebhook_success q st a c usr hq hany hc' husr'
  refine ⟨c, hcmem, ?_, ?_, ?_⟩
  · intro s hs
    have hnotgt := selectMax_not_gt hc s hs
    simp [lexGt, keyAmountCreatedAt] at hnotgt
    omega
  · rw [hrw]
    dsimp only
    rw [findTxn_post hnd (mem_pendingsOf.mp hcmem).1]
    simp [reconcileStep]
  · intro t htm htc
    have hidne : t.id ≠ c.id := fun he =>
      htc (List.inj_on_of_nodup_map hnd (mem_pendingsOf.mp htm).1
        (mem_pendingsOf.mp hcmem).1 he)
    have hup : isUserPendingPixDeposit a.userId t = true := by
      obtain ⟨-, h1, h2, h3, h4⟩ := mem_pendingsOf.mp htm
      simp [isUserPendingPixDeposit, isPendingPixDeposit, h1, h2, h3, h4]
    rw [hrw]
    dsimp only
    rw [findTxn_post hnd (mem_pendingsOf.mp htm).1]
    simp [reconcileStep, hidne, hup]

theorem webhook_completes_max_cancels_rest_witness :
    ∃ c ∈ pendingsOf 1 store500and35,
      (∀ s ∈ pendingsOf 1 store500and35, s.amount ≤ c.amount) ∧
      findTxn c.id (pixWebhook (some paidPayload) store500and35).2.txns =
        some { c with status := .COMPLETED } ∧
      ∀ t ∈ pendingsOf 1 store500and35, t ≠ c →
        findTxn t.id (pixWebhook (some paidPayload) store500and35).2.txns =
          some { t with status := .CANCELLED } :=
  webhook_completes_max_cancels_rest paidPayload store500and35 1 ⟨1, 0⟩
    (by decide) (by decide) (by decide) (by decide) (by decide)

/-- C2: a successful webhook run increases the identified user's balance
by exactly the selected candidate's amount, once; the cancelled sibling
transactions contribute no balance change (the credited amount in the
response and in the ledger is the candidate's amount alone). -/
theorem webhook_credits_candidate_amount_once (q : Payload) (st : Store) (u : Nat)
    (usr : User) (c : Transaction)
    (hq : q.status = "PAID")
    (hid : identifiedUser st = some u)
    (husr : findUser u st = some usr)
    (hc : candidateFor u st = some c) :
    (∃ k, (pixWebhook (some q) st).1 = .ok u c.amount k) ∧
    balanceOf u (pixWebhook (some q) st).2 = some (usr.balance + c.amount) := by
  obtain ⟨a, hany, hau⟩ := identifiedUser_eq_some hid
  subst hau
  have hcu : c.userId = a.userId := (mem_pendingsOf.mp (candidateFor_mem hc)).2.1
  have husr' : findUser c.userId st = some usr := by rw [hcu]; exact husr
  have hrw := pixWebhook_success q st a c usr hq hany hc husr'
  have husrid : usr.id = a.userId := by
    have := List.find?_some husr
    simpa using this
  constructor
  · exact ⟨_, by rw [hrw]⟩
  · rw [hrw]
    dsimp only [balanceOf, findUser]
    rw [creditBalance,
      find?_map_key _ User.id
        (by
          intro x
          by_cases h : x.id = c.userId <;> simp [h]) a.userId st.users]
    have : st.users.find? (fun x => x.id == a.userId) = some usr := husr
    rw [this]
    simp [Option.map_map, husrid, hcu, Function.comp]

theorem webhook_credits_candidate_amount_once_witness :
    (∃ k, (pixWebhook (some paidPayload) store500and35).1 = .ok 1 500 k) ∧
    balanceOf 1 (pixWebhook (some paidPayload) store500and35).2 = some (0 + 500) :=
  webhook_credits_candidate_amount_once paidPayload store500and35 1 ⟨1, 0⟩
    (mkDeposit 1 1 500 1 .PENDING) (by decide) (by decide) (by decide) (by decide)

/-- C3 counterexample: with PENDING deposits of 500 and 35, a persistence
failure at the cancelling `updateMany` (after the candidate's `save`
succeeded) surfaces as the 500 error while the candidate is observably
COMPLETED and the sibling observably still PENDING — a transaction's
status did change even though a persistence failure occurred, refuting the
claimed atomicity. -/
theorem webhook_not_atomic_counterexample :
    (pixWebhookF .failAtCancel (some paidPayload) store500and35).1 =
      .persistenceError ∧
    findTxn 1 (pixWebhookF .failAtCancel (some paidPayload) store500and35).2.txns =
      some (mkDeposit 1 1 500 1 .COMPLETED) ∧
    findTxn 2 (pixWebhookF .failAtCancel (some paidPayload) store500and35).2.txns =
      some (mkDeposit 2 1 35 2 .PENDING) := by
  decide

/-- C3 amended: the completion and the cancellations are two sequential
independent persistence operations, not one atomic unit.  A persistence
failure at the candidate's `save` leaves the store completely unchanged,
but a persistence failure at the cancelling `updateMany` leaves the
candidate COMPLETED (and the balance already credited) while every sibling
PENDING PIX deposit of the user observably remains PENDING; both failures
surface as the 500-equivalent error. -/
theorem webhook_fault_partial_state (q : Payload) (st : Store) (u : Nat) (usr : User)
    (hq : q.status = "PAID")
    (hid : identifiedUser st = some u)
    (husr : findUser u st = some usr)
    (hnd : (st.txns.map Transaction.id).Nodup) :
    pixWebhookF .failAtSave (some q) st = (.persistenceError, st) ∧
    ∃ c ∈ pendingsOf u st,
      (pixWebhookF .failAtCancel (some q) st).1 = .persistenceError ∧
      findTxn c.id (pixWebhookF .failAtCancel (some q) st).2.txns =
        some { c with status := .COMPLETED } ∧
      ∀ t ∈ pendingsOf u st, t ≠ c →
        findTxn t.id (pixWebhookF .failAtCancel (some q) st).2.txns = some t := by
  obtain ⟨a, hany, hau⟩ := identifiedUser_eq_some hid
  subst hau
  have hamem : a ∈ pendingsOf a.userId st :=
    mem_pendingsOf_self (selectMax_mem hany)
  obtain ⟨c, hc⟩ := Option.isSome_iff_exists.mp
    (@selectMax_isSome keyAmountCreatedAt _ (List.ne_nil_of_mem hamem))
  have hc' : candidateFor a.userId st = some c := hc
  have hcmem : c ∈ pendingsOf a.userId st := selectMax_mem hc
  have hcu : c.userId = a.userId := (mem_pendingsOf.mp hcmem).2.1
  have husr' : findUser c.userId st = some usr := by rw [hcu]; exact husr
  have hsave := pixWebhookF_failAtSave q st a c usr hq hany hc' husr'
  have hcancel := pixWebhookF_failAtCancel q st a c usr hq hany hc' husr'
  refine ⟨hsave, c, hcmem, by rw [hcancel], ?_, ?_⟩
  · rw [hcancel]
    dsimp only
    rw [findTxn_completeTxn hnd (mem_pendingsOf.mp hcmem).1]
    simp
  · intro t htm htc
    have hidne : t.id ≠ c.id := fun he =>
      htc (List.inj_on_of_nodup_map hnd (mem_pendingsOf.mp htm).1
        (mem_pendingsOf.mp hcmem).1 he)
    rw [hcancel]
    dsimp only
    rw [findTxn_completeTxn hnd (mem_pendingsOf.mp htm).1]
    simp [hidne]

theorem webhook_fault_partial_state_witness :
    pixWebhookF .failAtSave (some paidPayload) store500and35 =
      (.persistenceError, store500and35) ∧
    ∃ c ∈ pendingsOf 1 store500and35,
      (pixWebhookF .failAtCancel (some paidPayload) store500and35).1 =
        .persistenceError ∧
      findTxn c.id
          (pixWebhookF .failAtCancel (some paidPayload) store500and35).2.txns =
        some { c with status := .COMPLETED } ∧
      ∀ t ∈ pendingsOf 1 store500and35, t ≠ c →
        findTxn t.id
            (pixWebhookF .failAtCancel (some paidPayload) store500and35).2.txns =
          some t :=
  webhook_fault_partial_state paidPayload store500and35 1 ⟨1, 0⟩
    (by decide) (by decide) (by decide) (by decide)

theorem no_pendings_after_reconcile (txns : List Transaction) (u cid : Nat)
    (hall : ∀ t ∈ txns, isPendingPixDeposit t = true → t.userId = u) :
    (cancelOthers u cid (completeTxn cid txns)).filter isPendingPixDeposit = [] := by
  rw [cancelOthers_completeTxn, List.filter_eq_nil_iff]
  intro x hx
  obtain ⟨t, ht, rfl⟩ := List.mem_map.mp hx
  by_cases h1 : t.id = cid
  · have hstep : reconcileStep u cid t = { t with status := .COMPLETED } := by
      simp [reconcileStep, h1]
    rw [hstep]
    simp [isPendingPixDeposit]
  · by_cases h2 : isUserPendingPixDeposit u t = true
    · have hstep : reconcileStep u cid t = { t with status := .CANCELLED } := by
        simp [reconcileStep, h1, h2]
      rw [hstep]
      simp [isPendingPixDeposit]
    · have hstep : reconcileStep u cid t = t := by
        simp [reconcileStep, h1, h2]
      rw [hstep]
      intro hp
      exact h2 (by simp [isUserPendingPixDeposit, hall t ht hp, hp])

/-- C4 counterexample: with two users each holding one PENDING PIX deposit
(user 1 most recent), delivering the same success payload twice does NOT
make the second call fail with NoPendingDeposit: the second call succeeds,
credits user 2's deposit of 50, and mutates the store. -/
theorem webhook_second_delivery_counterexample :
    (pixWebhook (some paidPayload)
        (pixWebhook (some paidPayload) storeTwoUsers).2).1 = .ok 2 50 0 ∧
    (pixWebhook (some paidPayload)
        (pixWebhook (some paidPayload) storeTwoUsers).2).2 ≠
      (pixWebhook (some paidPayload) storeTwoUsers).2 := by
  decide

/-- C4 amended: when every PENDING PIX deposit in the store belongs to the
identified user — in particular whenever that user is the only one with
pending deposits — the first successful delivery resolves them all, so the
second delivery of the same payload fails with the system-wide
NoPendingDeposit error and performs no mutation.  (With pending deposits
of other users present, the second delivery instead reconciles another
user, as the counterexample shows.) -/
theorem webhook_second_delivery_rejected (q : Payload) (st : Store) (u : Nat)
    (usr : User)
    (hq : q.status = "PAID")
    (hid : identifiedUser st = some u)
    (husr : findUser u st = some usr)
    (hall : ∀ t ∈ systemPendings st, t.userId = u) :
    pixWebhook (some q) (pixWebhook (some q) st).2 =
      (.noPendingSystem, (pixWebhook (some q) st).2) := by
  obtain ⟨a, hany, hau⟩ := identifiedUser_eq_some hid
  subst hau
  have hamem : a ∈ pendingsOf a.userId st :=
    mem_pendingsOf_self (selectMax_mem hany)
  obtain ⟨c, hc⟩ := Option.isSome_iff_exists.mp
    (@selectMax_isSome keyAmountCreatedAt _ (List.ne_nil_of_mem hamem))
  have hc' : candidateFor a.userId st = some c := hc
  have hcu : c.userId = a.userId := (mem_pendingsOf.mp (selectMax_mem hc)).2.1
  have husr' : findUser c.userId st = some usr := by rw [hcu]; exact husr
  have hrw := pixWebhook_success q st a c usr hq hany hc' husr'
  rw [hrw]
  dsimp only
  apply pixWebhook_no_pending _ _ hq
  apply no_pendings_after_reconcile
  intro t ht hp
  exact hall t (List.mem_filter.mpr ⟨ht, hp⟩)

theorem webhook_second_delivery_rejected_witness :
    pixWebhook (some paidPayload) (pixWebhook (some paidPayload) store500and35).2 =
      (.noPendingSystem, (pixWebhook (some paidPayload) store500and35).2) :=
  webhook_second_delivery_rejected paidPayload store500and35 1 ⟨1, 0⟩
    (by decide) (by decide) (by decide) (by decide)

/-- C9: COMPLETED and CANCELLED are terminal.  Neither the webhook (on any
fault schedule and any payload) nor the deposit issuer ever changes the
status of a transaction already COMPLETED or CANCELLED: every status write
of the reconciliation targets only PENDING records, and the reporters are
read-only projections with no store output at all. -/
theorem terminal_status_never_changes (st : Store) (t : Transaction)
    (f : FaultPoint) (p : Option Payload) (uid : Nat) (amt : Option Nat)
    (newId now : Nat)
    (ht : t ∈ st.txns)
    (hterm : t.status = .COMPLETED ∨ t.status = .CANCELLED)
    (hnd : (st.txns.map Transaction.id).Nodup) :
    findTxn t.id (pixWebhookF f p st).2.txns = some t ∧
    findTxn t.id (generatePixQrCode uid amt newId now st).2.txns = some t := by
  have hfind := findTxn_of_nodup hnd ht
  constructor
  · match p with
    | none => simpa [pixWebhookF] using hfind
    | some q =>
      by_cases hq : q.status = "PAID"
      · cases hany : selectMax keyCreatedAt (systemPendings st) with
        | none => simpa [pixWebhookF, hq, hany] using hfind
        | some a =>
          cases hc : candidateFor a.userId st with
          | none => simpa [pixWebhookF, hq, hany, hc] using hfind
          | some c =>
            have hcmem := candidateFor_mem hc
            have hcpend : c.status = .PENDING := (mem_pendingsOf.mp hcmem).2.2.2.1
            have hidne : t.id ≠ c.id := by
              intro he
              have heq : t = c :=
                List.inj_on_of_nodup_map hnd ht (mem_pendingsOf.mp hcmem).1 he
              rw [heq, hcpend] at hterm
              rcases hterm with h | h <;> cases h
            have hnp : (t.status == TxnStatus.PENDING) = false := by
              rcases hterm with h | h <;> rw [h] <;> rfl
            have hnotu : isUserPendingPixDeposit a.userId t = false := by
              simp [isUserPendingPixDeposit, isPendingPixDeposit, hnp]
            cases husr : findUser c.userId st with
            | none => simpa [pixWebhookF, hq, hany, hc, husr] using hfind
            | some usr =>
              cases f with
              | noFault =>
                have hrw := pixWebhook_success q st a c usr hq hany hc husr
                have hpw : pixWebhookF .noFault (some q) st =
                    pixWebhook (some q) st := rfl
                rw [hpw, hrw]
                dsimp only
                rw [findTxn_post hnd ht]
                have hstep : reconcileStep a.userId c.id t = t := by
                  simp [reconcileStep, hidne, hnotu]
                rw [hstep]
              | failAtSave =>
                rw [pixWebhookF_failAtSave q st a c usr hq hany hc husr]
                exact hfind
              | failAtCancel =>
                rw [pixWebhookF_failAtCancel q st a c usr hq hany hc husr]
                dsimp only
                rw [findTxn_completeTxn hnd ht]
                simp [hidne]
      · simpa [pixWebhookF, hq] using hfind
  · match amt with
    | none => simpa [generatePixQrCode] using hfind
    | some a =>
      by_cases h0 : a == 0
      · simpa [generatePixQrCode, h0] using hfind
      · by_cases h35 : a < 35
        · simpa [generatePixQrCode, h0, h35] using hfind
        · by_cases hcred : st.hasActiveCredential
          · have : generatePixQrCode uid (some a) newId now st =
                (.created newId a,
                  { st with txns := st.txns ++
                      [⟨newId, uid, .DEPOSIT, a, .PENDING, .PIX, now⟩] }) := by
              simp [generatePixQrCode, h0, h35, hcred]
            rw [this]
            dsimp only
            exact find?_append_left _ _ _ hfind
          · simpa [generatePixQrCode, h0, h35, hcred] using hfind

theorem terminal_status_never_changes_witness :
    findTxn 1 (pixWebhookF .noFault (some paidPayload) storeMixed).2.txns =
      some (mkDeposit 1 1 50 1 .COMPLETED) ∧
    findTxn 1 (generatePixQrCode 1 (some 60) 3 7 storeMixed).2.txns =
      some (mkDeposit 1 1 50 1 .COMPLETED) :=
  terminal_status_never_changes storeMixed (mkDeposit 1 1 50 1 .COMPLETED)
    .noFault (some paidPayload) 1 (some 60) 3 7
    (by decide) (by decide) (by decide)
